import Mathlib

/-!
Shallow embedding of the agent execution orchestrator
(backend/libs/llm/src/agent-executor.service.ts) of the SecOps agent
platform.  Model calls are represented by an oracle function from the
run-global call index to the response the model-generation collaborator
returns; tool executors are functions that either return an output value
or fail with an error message (modelling a thrown or rejected promise
whose message field is read).  JavaScript values that may be undefined
are modelled with Option; JSON.parse is modelled by an executable
fuel-based parser over the argument string, and JSON.stringify by an
executable printer.  Timestamps on trace steps are real-time data and are
omitted from the model; no claim refers to them.
-/

namespace AgentExec

/-- JavaScript JSON values (numbers restricted to integers; no claim in
this development depends on fractional numbers). -/
inductive JsValue where
  | null : JsValue
  | bool (b : Bool) : JsValue
  | num (n : Int) : JsValue
  | str (s : String) : JsValue
  | arr (elems : List JsValue) : JsValue
  | obj (fields : List (String × JsValue)) : JsValue

mutual

/-- Model of JSON.stringify on defined values. -/
def jsonStringify : JsValue → String
  | .null => "null"
  | .bool true => "true"
  | .bool false => "false"
  | .num n => toString n
  | .str s => "\"" ++ s ++ "\""
  | .arr elems => "[" ++ jsonStringifyList elems ++ "]"
  | .obj fields => "\x7b" ++ jsonStringifyFields fields ++ "\x7d"

def jsonStringifyList : List JsValue → String
  | [] => ""
  | [v] => jsonStringify v
  | v :: rest => jsonStringify v ++ "," ++ jsonStringifyList rest

def jsonStringifyFields : List (String × JsValue) → String
  | [] => ""
  | [(k, v)] => "\"" ++ k ++ "\":" ++ jsonStringify v
  | (k, v) :: rest => "\"" ++ k ++ "\":" ++ jsonStringify v ++ "," ++ jsonStringifyFields rest

end

/-- Whitespace skipping for the JSON parser. -/
def skipWs : List Char → List Char
  | [] => []
  | c :: cs => if c = ' ' ∨ c = '\n' ∨ c = '\t' ∨ c = '\r' then skipWs cs else c :: cs

/-- Parse the body of a JSON string literal after the opening quote;
returns the string contents and the remaining characters. -/
def parseStringBody : List Char → Option (String × List Char)
  | [] => none
  | '"' :: cs => some ("", cs)
  | '\\' :: d :: cs =>
    (parseStringBody cs).map (fun p =>
      (String.singleton (if d = 'n' then '\n' else if d = 't' then '\t' else d) ++ p.1, p.2))
  | '\\' :: [] => none
  | c :: cs => (parseStringBody cs).map (fun p => (String.singleton c ++ p.1, p.2))

/-- Split a leading run of decimal digits. -/
def takeDigits : List Char → List Char × List Char
  | [] => ([], [])
  | c :: cs =>
    if c.isDigit then
      let p := takeDigits cs
      (c :: p.1, p.2)
    else ([], c :: cs)

/-- Natural number denoted by a digit list. -/
def digitsToNat : List Char → Nat :=
  fun ds => ds.foldl (fun acc c => acc * 10 + (c.toNat - '0'.toNat)) 0

/-- Check that a list of characters starts with the given prefix and
return the remainder. -/
def dropLit : List Char → List Char → Option (List Char)
  | [], cs => some cs
  | _ :: _, [] => none
  | l :: ls, c :: cs => if l = c then dropLit ls cs else none

mutual

/-- Fuel-based model of JSON.parse on one value; returns the value and
the unconsumed characters. -/
def parseValue : Nat → List Char → Option (JsValue × List Char)
  | 0, _ => none
  | fuel + 1, cs =>
    match skipWs cs with
    | [] => none
    | c :: rest =>
      if c = 'n' then (dropLit ['u', 'l', 'l'] rest).map (fun r => (JsValue.null, r))
      else if c = 't' then (dropLit ['r', 'u', 'e'] rest).map (fun r => (JsValue.bool true, r))
      else if c = 'f' then (dropLit ['a', 'l', 's', 'e'] rest).map (fun r => (JsValue.bool false, r))
      else if c = '"' then (parseStringBody rest).map (fun p => (JsValue.str p.1, p.2))
      else if c = '-' then
        match takeDigits rest with
        | ([], _) => none
        | (ds, r) => some (JsValue.num (-(digitsToNat ds : Int)), r)
      else if c.isDigit then
        match takeDigits (c :: rest) with
        | ([], _) => none
        | (ds, r) => some (JsValue.num (digitsToNat ds : Int), r)
      else if c = '[' then
        match skipWs rest with
        | ']' :: r => some (JsValue.arr [], r)
        | r => (parseElems fuel r).map (fun p => (JsValue.arr p.1, p.2))
      else if c = '\x7b' then
        match skipWs rest with
        | '\x7d' :: r => some (JsValue.obj [], r)
        | r => (parseFields fuel r).map (fun p => (JsValue.obj p.1, p.2))
      else none

/-- Parse one or more comma-separated array elements up to a closing
bracket. -/
def parseElems : Nat → List Char → Option (List JsValue × List Char)
  | 0, _ => none
  | fuel + 1, cs => do
    let (v, rest) ← parseValue fuel cs
    match skipWs rest with
    | ',' :: r =>
      let (vs, r2) ← parseElems fuel r
      pure (v :: vs, r2)
    | ']' :: r => pure ([v], r)
    | _ => none

/-- Parse one or more comma-separated object members up to a closing
brace. -/
def parseFields : Nat → List Char → Option (List (String × JsValue) × List Char)
  | 0, _ => none
  | fuel + 1, cs =>
    match skipWs cs with
    | '"' :: rest => do
      let (key, r1) ← parseStringBody rest
      match skipWs r1 with
      | ':' :: r2 =>
        let (v, r3) ← parseValue fuel r2
        match skipWs r3 with
        | ',' :: r4 =>
          let (fs, r5) ← parseFields fuel r4
          pure ((key, v) :: fs, r5)
        | '\x7d' :: r4 => pure ([(key, v)], r4)
        | _ => none
      | _ => none
    | _ => none

end

/-- Model of JSON.parse: none models a thrown SyntaxError. -/
def jsonParse (s : String) : Option JsValue :=
  match parseValue (s.length + 1) s.toList with
  | some (v, rest) => if skipWs rest = [] then some v else none
  | none => none

/-- Error message used to model the SyntaxError thrown by JSON.parse. -/
def jsonSyntaxErrorMessage : String := "Unexpected token in JSON"

/-- Token usage block of one model-generation response. -/
structure Usage where
  inputTokens : Nat
  outputTokens : Nat
  totalTokens : Nat
  deriving Repr, DecidableEq

/-- The function field of a tool-call request: tool name plus the raw
JSON arguments string, exactly as delivered by the provider. -/
structure ToolCallFunction where
  name : String
  arguments : String
  deriving Repr, DecidableEq

/-- A tool-call request emitted by the model. -/
structure ToolCall where
  id : String
  function : ToolCallFunction
  deriving Repr, DecidableEq

/-- A conversation message.  content is Option String because the code
can push a message whose content field is undefined (JSON.stringify of
an absent field); none models undefined. -/
structure Message where
  role : String
  content : Option String
  tool_calls : Option (List ToolCall) := none
  tool_call_id : Option String := none
  deriving Repr, DecidableEq

/-- A model-generation response as consumed by the orchestrator.  The
finishReason field of the provider interface is never read by the
orchestrator and is omitted. -/
structure LlmResponse where
  content : String
  toolCalls : Option (List ToolCall)
  usage : Usage
  deriving Repr, DecidableEq

/-- A tool definition offered to the model. -/
structure ToolDefinition where
  name : String
  description : String
  inputSchema : JsValue

/-- Execution context handed to each tool executor. -/
structure ToolExecutionContext where
  organizationId : String
  agentId : String
  userId : Option String
  deriving Repr, DecidableEq

/-- A supplied tool executor.  Except.error e models the executor
throwing or rejecting with an error whose message field is e. -/
structure ToolExecutor where
  name : String
  execute : JsValue → ToolExecutionContext → Except String JsValue

/-- One entry of the results array built by executeToolCalls.  Fields
that a given branch of the source does not set are none (absent). -/
structure ToolResult where
  toolCallId : String
  toolName : String
  input : Option JsValue
  output : Option JsValue
  error : Option String

/-- Payload of a trace step; one constructor per object shape the source
pushes (timestamps omitted). -/
inductive StepData where
  | llmCallMsg (input : Option Message) (output : String) (toolCalls : Option (List ToolCall)) : StepData
  | llmCallLabel (input : String) (output : String) : StepData
  | llmCallIter (iteration : Nat) (output : String) (toolCalls : Option (List ToolCall)) : StepData
  | llmCallPlanning (plan : String) : StepData
  | toolResults (results : List ToolResult) : StepData

/-- One trace step. -/
structure AgentExecutionStep where
  type : String
  data : StepData

/-- The result structure returned to the caller. -/
structure AgentExecutionResult where
  output : String
  toolCallsExecuted : Nat
  steps : List AgentExecutionStep
  usage : Usage

/-- Record of one generate() invocation: which arguments were passed.
tools = none and toolChoice = none model calls made without those
fields. -/
structure LlmRequest where
  modelAlias : String
  systemPrompt : String
  messages : List Message
  tools : Option (List ToolDefinition)
  toolChoice : Option String

/-- Outcome of running an orchestrator entry point: the value returned
or the error thrown, the oracle index after the run, and the list of
model-generation requests issued, in order. -/
structure ExecOutcome where
  result : Except String AgentExecutionResult
  callsAfter : Nat
  requests : List LlmRequest

/-- True when a response requests at least one tool call, mirroring the
JavaScript truthiness test response.toolCalls and length greater than
zero. -/
def hasToolCalls : Option (List ToolCall) → Bool
  | some (_ :: _) => true
  | _ => false

/-- The result entry produced for one tool call whose arguments parsed
to input: executor lookup by exact name, then invocation with errors
caught and recorded on the error field. -/
def resultForToolCall (toolExecutors : List ToolExecutor) (ctx : ToolExecutionContext)
    (tc : ToolCall) (input : JsValue) : ToolResult :=
  match toolExecutors.find? (fun e => e.name == tc.function.name) with
  | none =>
    { toolCallId := tc.id, toolName := tc.function.name,
      input := none, output := none,
      error := some ("Tool executor not found: " ++ tc.function.name) }
  | some executor =>
    match executor.execute input ctx with
    | .ok output =>
      { toolCallId := tc.id, toolName := tc.function.name,
        input := some input, output := some output, error := none }
    | .error e =>
      { toolCallId := tc.id, toolName := tc.function.name,
        input := some input, output := none, error := some e }

/-- executeToolCalls of the source: for each request in order, parse the
arguments with JSON.parse (uncaught: a parse failure throws out of the
whole phase, modelled by Except.error), look up the executor by exact
name, synthesize a not-found error result if absent, otherwise invoke
and catch. -/
def executeToolCalls (toolCalls : List ToolCall) (toolExecutors : List ToolExecutor)
    (ctx : ToolExecutionContext) : Except String (List ToolResult) :=
  match toolCalls with
  | [] => .ok []
  | tc :: rest =>
    match jsonParse tc.function.arguments with
    | none => .error jsonSyntaxErrorMessage
    | some toolInput =>
      (executeToolCalls rest toolExecutors ctx).map
        (fun rs => resultForToolCall toolExecutors ctx tc toolInput :: rs)

/-- The tool message appended to the conversation for one tool result:
content is JSON.stringify of the result output field, which is undefined
(none) for error results. -/
def mkToolMessage (r : ToolResult) : Message :=
  { role := "tool", content := r.output.map jsonStringify, tool_call_id := some r.toolCallId }

/-- The assistant message carrying the tool-call requests of a
response. -/
def mkAssistantMessage (response : LlmResponse) : Message :=
  { role := "assistant", content := some response.content, tool_calls := response.toolCalls }

/-- executeSingleStep of the source: one model call with tools offered;
if the response carries tool calls, execute them all, rebuild the
conversation, and make exactly one more call without tools.  Note the
returned usage is the first response usage only. -/
def executeSingleStep (oracle : Nat → LlmResponse) (k : Nat)
    (systemPrompt modelAlias : String) (messages : List Message)
    (toolDefinitions : List ToolDefinition) (toolExecutors : List ToolExecutor)
    (ctx : ToolExecutionContext) : ExecOutcome :=
  let req1 : LlmRequest :=
    { modelAlias := modelAlias, systemPrompt := systemPrompt, messages := messages,
      tools := some toolDefinitions, toolChoice := some "auto" }
  let response := oracle k
  let step1 : AgentExecutionStep :=
    { type := "llm_call", data := .llmCallMsg messages.getLast? response.content response.toolCalls }
  match response.toolCalls with
  | some (tc :: tcs) =>
    (match executeToolCalls (tc :: tcs) toolExecutors ctx with
     | .error e => { result := .error e, callsAfter := k + 1, requests := [req1] }
     | .ok results =>
       let toolStep : AgentExecutionStep := { type := "tool_call", data := .toolResults results }
       let messagesWithToolResults :=
         messages ++ [mkAssistantMessage response] ++ results.map mkToolMessage
       let req2 : LlmRequest :=
         { modelAlias := modelAlias, systemPrompt := systemPrompt,
           messages := messagesWithToolResults, tools := none, toolChoice := none }
       let finalResponse := oracle (k + 1)
       let step3 : AgentExecutionStep :=
         { type := "llm_call", data := .llmCallLabel "Tool results" finalResponse.content }
       { result := .ok
          { output := finalResponse.content,
            toolCallsExecuted := (tc :: tcs).length,
            steps := [step1, toolStep, step3],
            usage := response.usage },
         callsAfter := k + 2, requests := [req1, req2] })
  | _ =>
    { result := .ok
       { output := response.content, toolCallsExecuted := 0,
         steps := [step1], usage := response.usage },
      callsAfter := k + 1, requests := [req1] }

/-- Body of the while loop of executeLoop, with fuel counting the
remaining iterations (fuel = maxSteps - iteration) and explicit
accumulators for messages, steps, token counters, tool-call count and
the running final output. -/
def executeLoopAux (oracle : Nat → LlmResponse) (modelAlias systemPrompt : String)
    (toolDefinitions : List ToolDefinition) (toolExecutors : List ToolExecutor)
    (ctx : ToolExecutionContext) :
    Nat → Nat → Nat → List Message → List AgentExecutionStep → Nat → Nat → Nat → String →
    ExecOutcome
  | 0, k, _iteration, _msgs, steps, inT, outT, tce, finalOut =>
    { result := .ok
       { output := finalOut, toolCallsExecuted := tce, steps := steps,
         usage := { inputTokens := inT, outputTokens := outT, totalTokens := inT + outT } },
      callsAfter := k, requests := [] }
  | fuel + 1, k, iteration, msgs, steps, inT, outT, tce, _finalOut =>
    let req : LlmRequest :=
      { modelAlias := modelAlias, systemPrompt := systemPrompt, messages := msgs,
        tools := some toolDefinitions, toolChoice := some "auto" }
    let response := oracle k
    let inT2 := inT + response.usage.inputTokens
    let outT2 := outT + response.usage.outputTokens
    let llmStep : AgentExecutionStep :=
      { type := "llm_call", data := .llmCallIter (iteration + 1) response.content response.toolCalls }
    match response.toolCalls with
    | some (tc :: tcs) =>
      (match executeToolCalls (tc :: tcs) toolExecutors ctx with
       | .error e => { result := .error e, callsAfter := k + 1, requests := [req] }
       | .ok results =>
         let toolStep : AgentExecutionStep := { type := "tool_call", data := .toolResults results }
         let newMsgs := msgs ++ [mkAssistantMessage response] ++ results.map mkToolMessage
         let recOut := executeLoopAux oracle modelAlias systemPrompt toolDefinitions
           toolExecutors ctx fuel (k + 1) (iteration + 1) newMsgs
           (steps ++ [llmStep, toolStep]) inT2 outT2 (tce + (tc :: tcs).length) response.content
         { result := recOut.result, callsAfter := recOut.callsAfter,
           requests := req :: recOut.requests })
    | _ =>
      { result := .ok
         { output := response.content, toolCallsExecuted := tce,
           steps := steps ++ [llmStep],
           usage := { inputTokens := inT2, outputTokens := outT2, totalTokens := inT2 + outT2 } },
        callsAfter := k + 1, requests := [req] }

/-- executeLoop of the source: up to maxSteps rounds, terminating the
first time a response has no tool calls; finalOutput starts as the empty
string. -/
def executeLoop (oracle : Nat → LlmResponse) (k : Nat)
    (systemPrompt modelAlias : String) (messages : List Message)
    (toolDefinitions : List ToolDefinition) (toolExecutors : List ToolExecutor)
    (maxSteps : Nat) (ctx : ToolExecutionContext) : ExecOutcome :=
  executeLoopAux oracle modelAlias systemPrompt toolDefinitions toolExecutors ctx
    maxSteps k 0 messages [] 0 0 0 ""

/-- Suffix appended to the system prompt for the planning call. -/
def planInstructionSuffix : String :=
  "\n\nCreate a step-by-step plan to accomplish the user\x27s request. List the steps clearly."

/-- The framed assistant message carrying the plan text. -/
def planFramedMessage (plan : String) : Message :=
  { role := "assistant", content := some ("Plan:\n" ++ plan ++ "\n\nNow executing this plan...") }

/-- executePlanAndExecute of the source: one planning call with the
augmented prompt and no tools, a local steps array holding the planning
record that is built but never returned, then executeLoop over the
conversation extended with the framed plan message. -/
def executePlanAndExecute (oracle : Nat → LlmResponse) (k : Nat)
    (systemPrompt modelAlias : String) (messages : List Message)
    (toolDefinitions : List ToolDefinition) (toolExecutors : List ToolExecutor)
    (maxSteps : Nat) (ctx : ToolExecutionContext) : ExecOutcome :=
  let planningPrompt := systemPrompt ++ planInstructionSuffix
  let planReq : LlmRequest :=
    { modelAlias := modelAlias, systemPrompt := planningPrompt, messages := messages,
      tools := none, toolChoice := none }
  let planResponse := oracle k
  let _discardedSteps : List AgentExecutionStep :=
    [{ type := "llm_call", data := .llmCallPlanning planResponse.content }]
  let loopOut := executeLoop oracle (k + 1) systemPrompt modelAlias
    (messages ++ [planFramedMessage planResponse.content]) toolDefinitions toolExecutors
    maxSteps ctx
  { result := loopOut.result, callsAfter := loopOut.callsAfter,
    requests := planReq :: loopOut.requests }

/-- One stored system prompt version of an agent. -/
structure SystemPromptRecord where
  prompt : String
  status : String
  createdAt : Nat
  deriving Repr, DecidableEq

/-- A stored tool row. -/
structure ToolRecord where
  name : String
  description : Option String
  configInputSchema : Option JsValue

/-- An agent-to-tool join row as included by the agent query. -/
structure AgentToolRecord where
  tool : ToolRecord

/-- A stored agent row, carrying its prompt versions and tool joins as
the include clause of the agent query returns them. -/
structure AgentRecord where
  id : String
  defaultModelAlias : Option String
  planningMode : String
  maxSteps : Option Nat
  systemPrompts : List SystemPromptRecord
  tools : List AgentToolRecord

/-- A stored context document row. -/
structure ContextDocument where
  agentId : Option String
  organizationId : String
  title : String
  content : Option String
  deriving Repr, DecidableEq

/-- A stored agent memory row. -/
structure AgentMemory where
  agentId : String
  scope : String
  key : String
  value : String
  deriving Repr, DecidableEq

/-- The store visible to one run. -/
structure Db where
  agents : List AgentRecord
  contextDocuments : List ContextDocument
  agentMemories : List AgentMemory

/-- JavaScript a or-else b on strings: the empty string is falsy. -/
def jsOrString (s : Option String) (fallback : String) : String :=
  match s with
  | some v => if v = "" then fallback else v
  | none => fallback

/-- JavaScript a or-else b on numbers: zero is falsy. -/
def jsOrNat (n : Option Nat) (fallback : Nat) : Nat :=
  match n with
  | some v => if v = 0 then fallback else v
  | none => fallback

/-- The nested systemPrompts query of the agent lookup: status active,
newest first by createdAt, take 1. -/
def activeSystemPrompts (prompts : List SystemPromptRecord) : List SystemPromptRecord :=
  (List.insertionSort (fun a b => b.createdAt ≤ a.createdAt)
    (prompts.filter (fun p => p.status == "active"))).take 1

/-- The fallback input schema object of buildToolDefinitions. -/
def defaultInputSchema : JsValue :=
  .obj [("type", .str "object"), ("properties", .obj [])]

/-- buildToolDefinitions of the source. -/
def buildToolDefinitions (agentTools : List AgentToolRecord) : List ToolDefinition :=
  agentTools.map (fun a =>
    { name := a.tool.name,
      description := jsOrString a.tool.description ("Execute " ++ a.tool.name),
      inputSchema := (a.tool.configInputSchema).getD defaultInputSchema })

/-- The context document query of retrieveContext: agent-scoped or
organization-scoped with no agent, take 5. -/
def queryContextDocuments (db : Db) (agentId organizationId : String) : List ContextDocument :=
  (db.contextDocuments.filter (fun d =>
    d.agentId == some agentId ||
      (d.organizationId == organizationId && d.agentId == none))).take 5

/-- The memory query of retrieveContext: this agent, scope agent or
global, take 5. -/
def queryAgentMemories (db : Db) (agentId : String) : List AgentMemory :=
  (db.agentMemories.filter (fun m =>
    m.agentId == agentId && (m.scope == "agent" || m.scope == "global"))).take 5

/-- Model of the JavaScript substring(0, n) call: the first n characters
of the string. -/
def jsSubstringTo (s : String) (n : Nat) : String :=
  String.mk (s.data.take n)

/-- The snippet built for one context document: labeled by title, with
the content truncated to its first 1000 characters. -/
def docSnippet (d : ContextDocument) (content : String) : String :=
  "[Document: " ++ d.title ++ "]\n" ++ jsSubstringTo content 1000

/-- The snippet built for one memory: labeled by key, the value appended
in full. -/
def memorySnippet (m : AgentMemory) : String :=
  "[Memory: " ++ m.key ++ "]\n" ++ m.value

/-- retrieveContext of the source.  A document with absent or empty
content is skipped (the JavaScript truthiness test on doc.content); the
query parameter is unused by the source body and kept for fidelity. -/
def retrieveContext (db : Db) (agentId organizationId : String) (_query : String) :
    List String :=
  let contextDocs := queryContextDocuments db agentId organizationId
  let memories := queryAgentMemories db agentId
  (contextDocs.filterMap (fun d =>
    match d.content with
    | some c => if c = "" then none else some (docSnippet d c)
    | none => none)) ++ memories.map memorySnippet

/-- Delimited header of the relevant-context section. -/
def relevantContextHeader : String :=
  "\n\n## Relevant Context\n\nThe following context documents and memories may be helpful:\n\n"

/-- Footer of the relevant-context section. -/
def relevantContextFooter : String :=
  "\n\n---\n\nUse the above context when relevant to answer the user\x27s query."

/-- Separator placed between snippets. -/
def snippetSeparator : String := "\n\n---\n\n"

/-- buildEnhancedSystemPrompt of the source. -/
def buildEnhancedSystemPrompt (basePrompt : String) (contexts : List String) : String :=
  match contexts with
  | [] => basePrompt
  | _ =>
    basePrompt ++ relevantContextHeader ++ String.intercalate snippetSeparator contexts ++
      relevantContextFooter

/-- Options of one execute invocation (chatId and runId are never read
by the orchestrator and are omitted). -/
structure AgentExecutionOptions where
  agentId : String
  organizationId : String
  userId : Option String
  input : String
  previousMessages : Option (List Message)
  toolExecutors : Option (List ToolExecutor)

/-- Default system prompt applied when no active prompt resolves. -/
def defaultSystemPrompt : String := "You are a helpful AI assistant for SecOps."

/-- Default model alias applied when the agent has none. -/
def defaultModelAlias : String := "claude-3-5-sonnet"

/-- The new user message appended at the start of a run. -/
def userMessage (input : String) : Message :=
  { role := "user", content := some input }

/-- The active system prompt resolution of execute, with the default
applied when no active version exists (or the stored prompt is the empty
string, which JavaScript treats as falsy). -/
def resolvedSystemPrompt (agent : AgentRecord) : String :=
  jsOrString ((activeSystemPrompts agent.systemPrompts).head?.map (fun p => p.prompt))
    defaultSystemPrompt

/-- The model alias resolution of execute. -/
def resolvedModelAlias (agent : AgentRecord) : String :=
  jsOrString agent.defaultModelAlias defaultModelAlias

/-- The maxSteps resolution of execute (zero and absent both fall back to
ten). -/
def resolvedMaxSteps (agent : AgentRecord) : Nat :=
  jsOrNat agent.maxSteps 10

/-- The augmented system prompt a run uses. -/
def enhancedPromptFor (db : Db) (options : AgentExecutionOptions) (agent : AgentRecord) :
    String :=
  buildEnhancedSystemPrompt (resolvedSystemPrompt agent)
    (retrieveContext db options.agentId options.organizationId options.input)

/-- The conversation a run starts from: prior messages plus the new user
message. -/
def runMessages (options : AgentExecutionOptions) : List Message :=
  (options.previousMessages.getD []) ++ [userMessage options.input]

/-- The execution context handed to tool executors. -/
def runCtx (options : AgentExecutionOptions) : ToolExecutionContext :=
  { organizationId := options.organizationId, agentId := options.agentId,
    userId := options.userId }

/-- The executors a run uses. -/
def runExecutors (options : AgentExecutionOptions) : List ToolExecutor :=
  options.toolExecutors.getD []

/-- The rebuild of the single_step outcome done by execute: the trace is
copied and the usage total recomputed as inputTokens + outputTokens. -/
def singleStepWrap (out : ExecOutcome) : ExecOutcome :=
  match out.result with
  | .error e => { result := .error e, callsAfter := out.callsAfter, requests := out.requests }
  | .ok r =>
    { result := .ok
       { output := r.output, toolCallsExecuted := r.toolCallsExecuted, steps := r.steps,
         usage :=
          { inputTokens := r.usage.inputTokens, outputTokens := r.usage.outputTokens,
            totalTokens := r.usage.inputTokens + r.usage.outputTokens } },
      callsAfter := out.callsAfter, requests := out.requests }

/-- execute of the source: agent lookup, configuration resolution with
fallbacks, context retrieval, prompt augmentation, user message append,
then dispatch on the planning mode (any mode other than single_step and
loop_with_limits falls to plan_and_execute). -/
def execute (db : Db) (oracle : Nat → LlmResponse) (options : AgentExecutionOptions) :
    ExecOutcome :=
  match db.agents.find? (fun a => a.id == options.agentId) with
  | none => { result := .error "Agent not found", callsAfter := 0, requests := [] }
  | some agent =>
    if agent.planningMode == "single_step" then
      singleStepWrap (executeSingleStep oracle 0 (enhancedPromptFor db options agent)
        (resolvedModelAlias agent) (runMessages options) (buildToolDefinitions agent.tools)
        (runExecutors options) (runCtx options))
    else if agent.planningMode == "loop_with_limits" then
      executeLoop oracle 0 (enhancedPromptFor db options agent) (resolvedModelAlias agent)
        (runMessages options) (buildToolDefinitions agent.tools) (runExecutors options)
        (resolvedMaxSteps agent) (runCtx options)
    else
      executePlanAndExecute oracle 0 (enhancedPromptFor db options agent)
        (resolvedModelAlias agent) (runMessages options) (buildToolDefinitions agent.tools)
        (runExecutors options) (resolvedMaxSteps agent) (runCtx options)

/-- A heap of message arrays: a JavaScript array value is a reference (an
index) into this heap.  Used to model the in-place push onto the caller
supplied previousMessages array. -/
abbrev MessageHeap : Type := List (List Message)

/-- In-place push of one message onto the array at reference r. -/
def heapPush (h : MessageHeap) (r : Nat) (m : Message) : MessageHeap :=
  h.set r (h.getD r [] ++ [m])

/-- The message-list initialization of execute (lines building messages
from options.previousMessages and pushing the user input), with the
heap made explicit: a supplied previousMessages reference is reused and
mutated in place; absent previousMessages allocates a fresh array.
Returns the heap after the push and the reference the run works on. -/
def executeInitMessages (h : MessageHeap) (previousMessages : Option Nat) (input : String) :
    MessageHeap × Nat :=
  match previousMessages with
  | some r => (heapPush h r (userMessage input), r)
  | none => (h ++ [[userMessage input]], h.length)

/-- The plan-and-execute strategy exactly as the specification words it:
one preliminary model call using the system prompt augmented with the
plan instruction and with no tools offered, the plan text appended to
the conversation as a framed assistant message, then control falls
through to the loop strategy over the extended conversation with the
same limits. -/
def planAndExecuteSpec (oracle : Nat → LlmResponse) (k : Nat)
    (systemPrompt modelAlias : String) (messages : List Message)
    (toolDefinitions : List ToolDefinition) (toolExecutors : List ToolExecutor)
    (maxSteps : Nat) (ctx : ToolExecutionContext) : ExecOutcome :=
  let planningRequest : LlmRequest :=
    { modelAlias := modelAlias, systemPrompt := systemPrompt ++ planInstructionSuffix,
      messages := messages, tools := none, toolChoice := none }
  let planText := (oracle k).content
  let framed : Message :=
    { role := "assistant", content := some ("Plan:\n" ++ planText ++ "\n\nNow executing this plan...") }
  let loopOut := executeLoop oracle (k + 1) systemPrompt modelAlias (messages ++ [framed])
    toolDefinitions toolExecutors maxSteps ctx
  { result := loopOut.result, callsAfter := loopOut.callsAfter,
    requests := planningRequest :: loopOut.requests }

/-- The results list executeToolCalls produces when every arguments
string parses. -/
def toolResultsFor (toolExecutors : List ToolExecutor) (ctx : ToolExecutionContext)
    (toolCalls : List ToolCall) : List ToolResult :=
  toolCalls.map (fun tc =>
    resultForToolCall toolExecutors ctx tc ((jsonParse tc.function.arguments).getD .null))

/-- A loop round that keeps the loop going: the response at oracle index
i requests at least one tool call and every requested arguments string
parses (so the tool phase does not throw). -/
def roundContinues (oracle : Nat → LlmResponse) (i : Nat) : Prop :=
  hasToolCalls (oracle i).toolCalls = true ∧
    ∀ tc ∈ (oracle i).toolCalls.getD [], (jsonParse tc.function.arguments).isSome = true

instance (oracle : Nat → LlmResponse) (i : Nat) : Decidable (roundContinues oracle i) := by
  unfold roundContinues; infer_instance

/-- Sum of inputTokens + outputTokens over n consecutive oracle
responses starting at index k. -/
def oracleUsageSum (oracle : Nat → LlmResponse) : Nat → Nat → Nat
  | _, 0 => 0
  | k, n + 1 =>
    (oracle k).usage.inputTokens + (oracle k).usage.outputTokens +
      oracleUsageSum oracle (k + 1) n

/-- True for the trace record of the planning phase. -/
def isPlanningStep (s : AgentExecutionStep) : Bool :=
  match s.data with
  | .llmCallPlanning _ => true
  | _ => false

/-- Placeholder request used with List.getD. -/
def emptyLlmRequest : LlmRequest :=
  { modelAlias := "", systemPrompt := "", messages := [], tools := none, toolChoice := none }

/-- Placeholder message used with List.getD. -/
def emptyMessage : Message := { role := "", content := none }

/-- Placeholder step used with List.getD. -/
def emptyStep : AgentExecutionStep := { type := "", data := .llmCallLabel "" "" }

/-! Concrete fixtures used by counterexamples and witnesses. -/

/-- A tool call with arguments that parse (the empty JSON object). -/
def okToolCall : ToolCall :=
  { id := "call_1", function := { name := "lookup_ip", arguments := "\x7b\x7d" } }

/-- An executor that succeeds. -/
def okExecutor : ToolExecutor := { name := "lookup_ip", execute := fun _ _ => .ok (.str "ok") }

/-- An executor that throws with message timeout. -/
def throwingExecutor : ToolExecutor :=
  { name := "lookup_ip", execute := fun _ _ => .error "timeout" }

/-- A context used by concrete runs. -/
def exCtx : ToolExecutionContext := { organizationId := "o1", agentId := "a1", userId := none }

/-- Fixture for the token-usage claim: a single_step agent. -/
def c1Agent : AgentRecord :=
  { id := "a1", defaultModelAlias := some "claude-3-5-sonnet", planningMode := "single_step",
    maxSteps := some 10, systemPrompts := [], tools := [] }

def c1Db : Db := { agents := [c1Agent], contextDocuments := [], agentMemories := [] }

/-- Oracle for the token-usage run: the first call answers with one tool
call and usage 1 + 2, the second call answers with usage 4 + 8. -/
def c1Oracle : Nat → LlmResponse := fun n =>
  if n = 0 then
    { content := "c0", toolCalls := some [okToolCall],
      usage := { inputTokens := 1, outputTokens := 2, totalTokens := 3 } }
  else
    { content := "final", toolCalls := none,
      usage := { inputTokens := 4, outputTokens := 8, totalTokens := 12 } }

def c1Options : AgentExecutionOptions :=
  { agentId := "a1", organizationId := "o1", userId := none, input := "hi",
    previousMessages := none, toolExecutors := some [okExecutor] }

/-- The result value the token-usage run returns. -/
def c1Result : AgentExecutionResult :=
  { output := "final", toolCallsExecuted := 1,
    steps :=
      [{ type := "llm_call",
         data := .llmCallMsg (some (userMessage "hi")) "c0" (some [okToolCall]) },
       { type := "tool_call",
         data := .toolResults
          [{ toolCallId := "call_1", toolName := "lookup_ip", input := some (.obj []),
             output := some (.str "ok"), error := none }] },
       { type := "llm_call", data := .llmCallLabel "Tool results" "final" }],
    usage := { inputTokens := 1, outputTokens := 2, totalTokens := 3 } }

/-- Fixture for the tool-error feedback claim: a two-round loop agent. -/
def c2Agent : AgentRecord :=
  { id := "a1", defaultModelAlias := some "claude-3-5-sonnet",
    planningMode := "loop_with_limits", maxSteps := some 2, systemPrompts := [], tools := [] }

def c2Db : Db := { agents := [c2Agent], contextDocuments := [], agentMemories := [] }

def c2Options : AgentExecutionOptions :=
  { agentId := "a1", organizationId := "o1", userId := none, input := "hi",
    previousMessages := none, toolExecutors := some [throwingExecutor] }

/-- Fixture for the configuration claim: an agent with no active system
prompt version and no model alias. -/
def c3Agent : AgentRecord :=
  { id := "a3", defaultModelAlias := none, planningMode := "loop_with_limits",
    maxSteps := some 1,
    systemPrompts := [{ prompt := "draft prompt", status := "draft", createdAt := 5 }],
    tools := [] }

def c3Db : Db := { agents := [c3Agent], contextDocuments := [], agentMemories := [] }

def c3Oracle : Nat → LlmResponse := fun _ =>
  { content := "resp", toolCalls := none,
    usage := { inputTokens := 1, outputTokens := 1, totalTokens := 2 } }

def c3Options : AgentExecutionOptions :=
  { agentId := "a3", organizationId := "o1", userId := none, input := "hi",
    previousMessages := none, toolExecutors := none }

/-- Fixture for the context-assembly claim: a memory whose value is 1200
characters long and a document whose content is 1500 characters long. -/
def c4LongValue : String := String.mk (List.replicate 1200 'a')

def c4LongContent : String := String.mk (List.replicate 1500 'b')

def c4Doc : ContextDocument :=
  { agentId := some "a4", organizationId := "o1", title := "t1", content := some c4LongContent }

def c4Mem : AgentMemory := { agentId := "a4", scope := "agent", key := "k1", value := c4LongValue }

def c4Db : Db := { agents := [], contextDocuments := [c4Doc], agentMemories := [c4Mem] }

/-- Small fixture for the context-assembly witness. -/
def c4SmallDoc : ContextDocument :=
  { agentId := some "a5", organizationId := "o1", title := "t2", content := some "dc" }

def c4SmallMem : AgentMemory := { agentId := "a5", scope := "global", key := "k2", value := "mv" }

def c4SmallDb : Db := { agents := [], contextDocuments := [c4SmallDoc], agentMemories := [c4SmallMem] }

/-- Oracle for loop witnesses: round 0 requests a tool call, round 1
answers without tool calls, later rounds are never reached. -/
def c5Oracle : Nat → LlmResponse := fun n =>
  if n = 0 then
    { content := "r0", toolCalls := some [okToolCall],
      usage := { inputTokens := 1, outputTokens := 1, totalTokens := 2 } }
  else
    { content := "r1", toolCalls := none,
      usage := { inputTokens := 1, outputTokens := 1, totalTokens := 2 } }

/-- A tool call whose arguments string is not valid JSON. -/
def badToolCall : ToolCall :=
  { id := "call_bad", function := { name := "lookup_ip", arguments := "not json" } }

/-- Oracle whose first response requests one tool call with arguments
that do not parse as JSON. -/
def c6BadOracle : Nat → LlmResponse := fun _ =>
  { content := "c0", toolCalls := some [badToolCall],
    usage := { inputTokens := 1, outputTokens := 1, totalTokens := 2 } }

/-- Fixture for the plan-and-execute trace witness. -/
def c9Oracle : Nat → LlmResponse := fun n =>
  if n = 0 then
    { content := "the plan", toolCalls := none,
      usage := { inputTokens := 1, outputTokens := 1, totalTokens := 2 } }
  else
    { content := "done", toolCalls := none,
      usage := { inputTokens := 2, outputTokens := 3, totalTokens := 5 } }

/-- The result value the plan-and-execute witness run returns. -/
def c9Result : AgentExecutionResult :=
  { output := "done", toolCallsExecuted := 0,
    steps := [{ type := "llm_call", data := .llmCallIter 1 "done" none }],
    usage := { inputTokens := 2, outputTokens := 3, totalTokens := 5 } }

/-- Fixture heap for the in-place append witness: one caller array
holding one prior message. -/
def c10Heap : MessageHeap := [[{ role := "assistant", content := some "earlier" }]]

/-- The trace step the failing-executor loop run records for the tool
round: the error text appears here and only here. -/
def c2ToolStep : AgentExecutionStep :=
  { type := "tool_call",
    data := .toolResults
      [{ toolCallId := "call_1", toolName := "lookup_ip", input := some (.obj []),
         output := none, error := some "timeout" }] }

/-! ## Helper lemmas -/

theorem resultForToolCall_toolCallId (te : List ToolExecutor) (ctx : ToolExecutionContext)
    (tc : ToolCall) (v : JsValue) : (resultForToolCall te ctx tc v).toolCallId = tc.id := by
  cases h1 : te.find? (fun e => e.name == tc.function.name) with
  | none => simp [resultForToolCall, h1]
  | some ex =>
    cases h2 : ex.execute v ctx <;> simp [resultForToolCall, h1, h2]

theorem executeToolCalls_eq_map (tcs : List ToolCall) (te : List ToolExecutor)
    (ctx : ToolExecutionContext)
    (h : ∀ tc ∈ tcs, (jsonParse tc.function.arguments).isSome = true) :
    executeToolCalls tcs te ctx = .ok (toolResultsFor te ctx tcs) := by
  induction tcs with
  | nil => rfl
  | cons tc rest ih =>
    have htc := h tc (List.mem_cons_self _ _)
    obtain ⟨v, hv⟩ := Option.isSome_iff_exists.mp htc
    have hrest := ih (fun t ht => h t (List.mem_cons_of_mem _ ht))
    simp [executeToolCalls, toolResultsFor, hv, hrest, Except.map]

theorem executeToolCalls_error_of_parse_fail (tcs : List ToolCall) (te : List ToolExecutor)
    (ctx : ToolExecutionContext) (t : ToolCall) (ht : t ∈ tcs)
    (hparse : jsonParse t.function.arguments = none) :
    executeToolCalls tcs te ctx = .error jsonSyntaxErrorMessage := by
  induction tcs with
  | nil => cases ht
  | cons tc rest ih =>
    rcases List.mem_cons.mp ht with h | h
    · subst h
      simp [executeToolCalls, hparse]
    · cases hp : jsonParse tc.function.arguments with
      | none => simp [executeToolCalls, hp]
      | some v => simp [executeToolCalls, hp, ih h, Except.map]

theorem toolResultsFor_length (te : List ToolExecutor) (ctx : ToolExecutionContext)
    (tcs : List ToolCall) : (toolResultsFor te ctx tcs).length = tcs.length := by
  simp [toolResultsFor]

theorem toolResultsFor_ids (te : List ToolExecutor) (ctx : ToolExecutionContext)
    (tcs : List ToolCall) :
    (toolResultsFor te ctx tcs).map (fun r => r.toolCallId) = tcs.map (fun tc => tc.id) := by
  simp [toolResultsFor, List.map_map]
  exact fun tc _ => resultForToolCall_toolCallId te ctx tc _

section LoopLemmas

variable (oracle : Nat → LlmResponse) (ma sp : String) (td : List ToolDefinition)
  (te : List ToolExecutor) (ctx : ToolExecutionContext)

theorem executeLoopAux_requests_le :
    ∀ (fuel k it : Nat) (msgs : List Message) (steps : List AgentExecutionStep)
      (inT outT tce : Nat) (f0 : String),
      (executeLoopAux oracle ma sp td te ctx fuel k it msgs steps inT outT tce f0).requests.length
        ≤ fuel := by
  intro fuel
  induction fuel with
  | zero => intro k it msgs steps inT outT tce f0; simp [executeLoopAux]
  | succ n ih =>
    intro k it msgs steps inT outT tce f0
    simp only [executeLoopAux]
    cases htc : (oracle k).toolCalls with
    | none => simp
    | some l =>
      cases l with
      | nil => simp
      | cons tc tcs =>
        dsimp only
        cases hec : executeToolCalls (tc :: tcs) te ctx with
        | error e => simp
        | ok results =>
          dsimp only
          simp only [List.length_cons]
          exact Nat.succ_le_succ (ih (k + 1) (it + 1) _ _ _ _ _ _)

theorem executeLoopAux_stops :
    ∀ (j fuel k it : Nat) (msgs : List Message) (steps : List AgentExecutionStep)
      (inT outT tce : Nat) (f0 : String),
      j < fuel →
      (∀ i, i < j → roundContinues oracle (k + i)) →
      hasToolCalls (oracle (k + j)).toolCalls = false →
      (executeLoopAux oracle ma sp td te ctx fuel k it msgs steps inT outT tce f0).requests.length
          = j + 1 ∧
      (executeLoopAux oracle ma sp td te ctx fuel k it msgs steps inT outT tce f0).callsAfter
          = k + j + 1 ∧
      (executeLoopAux oracle ma sp td te ctx fuel k it msgs steps inT outT tce
          f0).result.toOption.map (fun r => r.output) = some (oracle (k + j)).content := by
  intro j
  induction j with
  | zero =>
    intro fuel k it msgs steps inT outT tce f0 hj _ hstop
    obtain ⟨n, rfl⟩ : ∃ n, fuel = n + 1 := ⟨fuel - 1, by omega⟩
    rw [Nat.add_zero] at hstop
    simp only [executeLoopAux]
    cases htc : (oracle k).toolCalls with
    | none => simp [Except.toOption]
    | some l =>
      cases l with
      | nil => simp [Except.toOption]
      | cons tc tcs => rw [htc] at hstop; simp [hasToolCalls] at hstop
  | succ j ih =>
    intro fuel k it msgs steps inT outT tce f0 hj hcont hstop
    obtain ⟨n, rfl⟩ : ∃ n, fuel = n + 1 := ⟨fuel - 1, by omega⟩
    have h0 := hcont 0 (Nat.succ_pos j)
    rw [Nat.add_zero] at h0
    obtain ⟨hhas, hparse⟩ := h0
    simp only [executeLoopAux]
    cases htc : (oracle k).toolCalls with
    | none => rw [htc] at hhas; simp [hasToolCalls] at hhas
    | some l =>
      cases l with
      | nil => rw [htc] at hhas; simp [hasToolCalls] at hhas
      | cons tc tcs =>
        dsimp only
        rw [htc] at hparse
        rw [executeToolCalls_eq_map (tc :: tcs) te ctx (by simpa using hparse)]
        dsimp only
        have ihr := ih n (k + 1) (it + 1)
          (msgs ++ [mkAssistantMessage (oracle k)] ++
            List.map mkToolMessage (toolResultsFor te ctx (tc :: tcs)))
          (steps ++
            [{ type := "llm_call",
               data := StepData.llmCallIter (it + 1) (oracle k).content (some (tc :: tcs)) },
             { type := "tool_call", data := StepData.toolResults (toolResultsFor te ctx (tc :: tcs)) }])
          (inT + (oracle k).usage.inputTokens) (outT + (oracle k).usage.outputTokens)
          (tce + (tc :: tcs).length) (oracle k).content
          (by omega)
          (fun i hi => by
            have h := hcont (i + 1) (by omega)
            have hx : k + (i + 1) = k + 1 + i := by omega
            rwa [hx] at h)
          (by
            have hx : k + 1 + j = k + (j + 1) := by omega
            rwa [hx])
        simp only [List.length_cons] at ihr ⊢
        refine ⟨by rw [ihr.1], by rw [ihr.2.1]; omega, ?_⟩
        rw [ihr.2.2]
        have hx : k + 1 + j = k + (j + 1) := by omega
        rw [hx]

theorem executeLoopAux_exhausts :
    ∀ (fuel k it : Nat) (msgs : List Message) (steps : List AgentExecutionStep)
      (inT outT tce : Nat) (f0 : String),
      (∀ i, i < fuel → roundContinues oracle (k + i)) →
      (executeLoopAux oracle ma sp td te ctx fuel k it msgs steps inT outT tce f0).requests.length
          = fuel ∧
      (executeLoopAux oracle ma sp td te ctx fuel k it msgs steps inT outT tce f0).callsAfter
          = k + fuel ∧
      (executeLoopAux oracle ma sp td te ctx fuel k it msgs steps inT outT tce
          f0).result.toOption.map (fun r => r.output)
          = some (if fuel = 0 then f0 else (oracle (k + fuel - 1)).content) := by
  intro fuel
  induction fuel with
  | zero =>
    intro k it msgs steps inT outT tce f0 _
    simp [executeLoopAux, Except.toOption]
  | succ n ih =>
    intro k it msgs steps inT outT tce f0 hcont
    have h0 := hcont 0 (Nat.succ_pos n)
    rw [Nat.add_zero] at h0
    obtain ⟨hhas, hparse⟩ := h0
    simp only [executeLoopAux]
    cases htc : (oracle k).toolCalls with
    | none => rw [htc] at hhas; simp [hasToolCalls] at hhas
    | some l =>
      cases l with
      | nil => rw [htc] at hhas; simp [hasToolCalls] at hhas
      | cons tc tcs =>
        dsimp only
        rw [htc] at hparse
        rw [executeToolCalls_eq_map (tc :: tcs) te ctx (by simpa using hparse)]
        dsimp only
        have ihr := ih (k + 1) (it + 1)
          (msgs ++ [mkAssistantMessage (oracle k)] ++
            List.map mkToolMessage (toolResultsFor te ctx (tc :: tcs)))
          (steps ++
            [{ type := "llm_call",
               data := StepData.llmCallIter (it + 1) (oracle k).content (some (tc :: tcs)) },
             { type := "tool_call", data := StepData.toolResults (toolResultsFor te ctx (tc :: tcs)) }])
          (inT + (oracle k).usage.inputTokens) (outT + (oracle k).usage.outputTokens)
          (tce + (tc :: tcs).length) (oracle k).content
          (fun i hi => by
            have h := hcont (i + 1) (by omega)
            have hx : k + (i + 1) = k + 1 + i := by omega
            rwa [hx] at h)
        simp only [List.length_cons] at ihr ⊢
        refine ⟨by rw [ihr.1], by rw [ihr.2.1]; omega, ?_⟩
        rw [ihr.2.2]
        cases n with
        | zero => simp
        | succ m =>
          have hx : k + 1 + (m + 1) - 1 = k + (m + 1 + 1) - 1 := by omega
          simp only [Nat.succ_ne_zero, if_false]
          rw [hx]

theorem executeLoopAux_ok_usage :
    ∀ (fuel k it : Nat) (msgs : List Message) (steps : List AgentExecutionStep)
      (inT outT tce : Nat) (f0 : String) (r : AgentExecutionResult),
      (executeLoopAux oracle ma sp td te ctx fuel k it msgs steps inT outT tce f0).result = .ok r →
      r.usage.totalTokens = inT + outT + oracleUsageSum oracle k
        (executeLoopAux oracle ma sp td te ctx fuel k it msgs steps inT outT tce
          f0).requests.length := by
  intro fuel
  induction fuel with
  | zero =>
    intro k it msgs steps inT outT tce f0 r hr
    simp only [executeLoopAux] at hr ⊢
    cases hr
    simp [oracleUsageSum]
  | succ n ih =>
    intro k it msgs steps inT outT tce f0 r hr
    simp only [executeLoopAux] at hr ⊢
    cases htc : (oracle k).toolCalls with
    | none =>
      rw [htc] at hr
      dsimp only at hr ⊢
      cases hr
      simp [oracleUsageSum]
      omega
    | some l =>
      cases l with
      | nil =>
        rw [htc] at hr
        dsimp only at hr ⊢
        cases hr
        simp [oracleUsageSum]
        omega
      | cons tc tcs =>
        rw [htc] at hr
        dsimp only at hr ⊢
        cases hec : executeToolCalls (tc :: tcs) te ctx with
        | error e =>
          rw [hec] at hr
          dsimp only at hr
          cases hr
        | ok results =>
          rw [hec] at hr
          dsimp only at hr ⊢
          have ihr := ih (k + 1) (it + 1) _ _ _ _ _ _ r hr
          simp only [List.length_cons] at ihr ⊢
          simp only [oracleUsageSum]
          omega

theorem executeLoopAux_no_planning :
    ∀ (fuel k it : Nat) (msgs : List Message) (steps : List AgentExecutionStep)
      (inT outT tce : Nat) (f0 : String) (r : AgentExecutionResult),
      steps.all (fun s => !isPlanningStep s) = true →
      (executeLoopAux oracle ma sp td te ctx fuel k it msgs steps inT outT tce f0).result = .ok r →
      r.steps.all (fun s => !isPlanningStep s) = true := by
  intro fuel
  induction fuel with
  | zero =>
    intro k it msgs steps inT outT tce f0 r hsteps hr
    simp only [executeLoopAux] at hr
    cases hr
    exact hsteps
  | succ n ih =>
    intro k it msgs steps inT outT tce f0 r hsteps hr
    simp only [executeLoopAux] at hr
    cases htc : (oracle k).toolCalls with
    | none =>
      rw [htc] at hr
      dsimp only at hr
      cases hr
      rw [List.all_append]
      simp only [Bool.and_eq_true]
      exact ⟨hsteps, by simp [isPlanningStep]⟩
    | some l =>
      cases l with
      | nil =>
        rw [htc] at hr
        dsimp only at hr
        cases hr
        rw [List.all_append]
        simp only [Bool.and_eq_true]
        exact ⟨hsteps, by simp [isPlanningStep]⟩
      | cons tc tcs =>
        rw [htc] at hr
        dsimp only at hr
        cases hec : executeToolCalls (tc :: tcs) te ctx with
        | error e =>
          rw [hec] at hr
          dsimp only at hr
          cases hr
        | ok results =>
          rw [hec] at hr
          dsimp only at hr
          refine ih (k + 1) (it + 1) _ _ _ _ _ _ r ?_ hr
          rw [List.all_append]
          simp only [Bool.and_eq_true]
          exact ⟨hsteps, by simp [isPlanningStep]⟩

theorem executeLoopAux_request_fields :
    ∀ (fuel k it : Nat) (msgs : List Message) (steps : List AgentExecutionStep)
      (inT outT tce : Nat) (f0 : String),
      (executeLoopAux oracle ma sp td te ctx fuel k it msgs steps inT outT tce f0).requests.all
        (fun req => req.modelAlias == ma && req.systemPrompt == sp) = true := by
  intro fuel
  induction fuel with
  | zero =>
    intro k it msgs steps inT outT tce f0
    simp [executeLoopAux]
  | succ n ih =>
    intro k it msgs steps inT outT tce f0
    simp only [executeLoopAux]
    cases htc : (oracle k).toolCalls with
    | none => simp
    | some l =>
      cases l with
      | nil => simp
      | cons tc tcs =>
        dsimp only
        cases hec : executeToolCalls (tc :: tcs) te ctx with
        | error e => simp
        | ok results =>
          dsimp only
          simp only [List.all_cons]
          simp [ih (k + 1) (it + 1)]

end LoopLemmas

theorem executeSingleStep_ok_usage (oracle : Nat → LlmResponse) (k : Nat)
    (sp ma : String) (msgs : List Message) (td : List ToolDefinition)
    (te : List ToolExecutor) (ctx : ToolExecutionContext) (r : AgentExecutionResult)
    (hr : (executeSingleStep oracle k sp ma msgs td te ctx).result = .ok r) :
    r.usage = (oracle k).usage := by
  simp only [executeSingleStep] at hr
  cases htc : (oracle k).toolCalls with
  | none => rw [htc] at hr; dsimp only at hr; cases hr; rfl
  | some l =>
    cases l with
    | nil => rw [htc] at hr; dsimp only at hr; cases hr; rfl
    | cons tc tcs =>
      rw [htc] at hr
      dsimp only at hr
      cases hec : executeToolCalls (tc :: tcs) te ctx with
      | error e => rw [hec] at hr; dsimp only at hr; cases hr
      | ok results => rw [hec] at hr; dsimp only at hr; cases hr; rfl

theorem executeSingleStep_request_fields (oracle : Nat → LlmResponse) (k : Nat)
    (sp ma : String) (msgs : List Message) (td : List ToolDefinition)
    (te : List ToolExecutor) (ctx : ToolExecutionContext) :
    (executeSingleStep oracle k sp ma msgs td te ctx).requests.all
      (fun req => req.modelAlias == ma && req.systemPrompt == sp) = true ∧
    0 < (executeSingleStep oracle k sp ma msgs td te ctx).requests.length := by
  simp only [executeSingleStep]
  cases htc : (oracle k).toolCalls with
  | none => simp
  | some l =>
    cases l with
    | nil => simp
    | cons tc tcs =>
      dsimp only
      cases hec : executeToolCalls (tc :: tcs) te ctx with
      | error e => simp
      | ok results => simp

theorem executeLoopAux_requests_pos (oracle : Nat → LlmResponse) (ma sp : String)
    (td : List ToolDefinition) (te : List ToolExecutor) (ctx : ToolExecutionContext)
    (fuel k it : Nat) (msgs : List Message) (steps : List AgentExecutionStep)
    (inT outT tce : Nat) (f0 : String) (hfuel : 0 < fuel) :
    0 < (executeLoopAux oracle ma sp td te ctx fuel k it msgs steps inT outT tce f0).requests.length := by
  obtain ⟨n, rfl⟩ : ∃ n, fuel = n + 1 := ⟨fuel - 1, by omega⟩
  simp only [executeLoopAux]
  cases htc : (oracle k).toolCalls with
  | none => simp
  | some l =>
    cases l with
    | nil => simp
    | cons tc tcs =>
      dsimp only
      cases hec : executeToolCalls (tc :: tcs) te ctx with
      | error e => simp
      | ok results => simp

/-- C5: in every loop_with_limits run with maxSteps = K, at most K
model-generation calls occur; when the first j rounds all request tool
calls (with parseable arguments) and round j has none, the loop stops at
round j with that response content as the final output; and when all K
rounds request tool calls, the run still succeeds and returns the last
round output (soft limit). -/
theorem loopWithLimits_budget_and_termination
    (oracle : Nat → LlmResponse) (k : Nat) (sp ma : String) (msgs : List Message)
    (td : List ToolDefinition) (te : List ToolExecutor) (maxSteps : Nat)
    (ctx : ToolExecutionContext) (j : Nat)
    (hcont : ∀ i, i < j → roundContinues oracle (k + i)) :
    (executeLoop oracle k sp ma msgs td te maxSteps ctx).requests.length ≤ maxSteps ∧
    (j < maxSteps → hasToolCalls (oracle (k + j)).toolCalls = false →
      (executeLoop oracle k sp ma msgs td te maxSteps ctx).requests.length = j + 1 ∧
      (executeLoop oracle k sp ma msgs td te maxSteps ctx).result.toOption.map
        (fun r => r.output) = some (oracle (k + j)).content) ∧
    (j = maxSteps → 0 < maxSteps →
      (executeLoop oracle k sp ma msgs td te maxSteps ctx).requests.length = maxSteps ∧
      (executeLoop oracle k sp ma msgs td te maxSteps ctx).result.toOption.map
        (fun r => r.output) = some (oracle (k + maxSteps - 1)).content) := by
  simp only [executeLoop]
  refine ⟨executeLoopAux_requests_le oracle ma sp td te ctx maxSteps k 0 msgs [] 0 0 0 "", ?_, ?_⟩
  · intro hj hstop
    have h := executeLoopAux_stops oracle ma sp td te ctx j maxSteps k 0 msgs [] 0 0 0 ""
      hj hcont hstop
    exact ⟨h.1, h.2.2⟩
  · intro hje hpos
    subst hje
    have h := executeLoopAux_exhausts oracle ma sp td te ctx j k 0 msgs [] 0 0 0 "" hcont
    refine ⟨h.1, ?_⟩
    rw [h.2.2]
    cases j with
    | zero => omega
    | succ m => simp

theorem loopWithLimits_budget_and_termination_witness :
    (executeLoop c5Oracle 0 "s" "m" [userMessage "hi"] [] [okExecutor] 3 exCtx).requests.length
        = 2 ∧
    (executeLoop c5Oracle 0 "s" "m" [userMessage "hi"] [] [okExecutor] 3
        exCtx).result.toOption.map (fun r => r.output) = some "r1" := by
  have h := loopWithLimits_budget_and_termination c5Oracle 0 "s" "m" [userMessage "hi"]
    [] [okExecutor] 3 exCtx 1 (by decide)
  have h2 := h.2.1 (by omega) (by decide)
  exact ⟨h2.1, by rw [h2.2]; rfl⟩

/-- C6 (amended): in every single_step run whose first response requests
at least one tool call, provided every requested arguments string parses
as JSON, exactly two model calls occur, the second without tools or tool
choice; the result counts those tool calls, each request got exactly one
result (same length, matching correlation ids, all appended to the
conversation of the second call); and the final output is the second
response content.  When the first response has no tool calls, exactly
one call occurs, its content is the output, and the tool-call count is
zero. -/
theorem singleStep_two_call_shape
    (oracle : Nat → LlmResponse) (k : Nat) (sp ma : String) (msgs : List Message)
    (td : List ToolDefinition) (te : List ToolExecutor) (ctx : ToolExecutionContext) :
    (∀ tcs, (oracle k).toolCalls = some tcs → tcs ≠ [] →
      (∀ tc ∈ tcs, (jsonParse tc.function.arguments).isSome = true) →
      (executeSingleStep oracle k sp ma msgs td te ctx).requests.length = 2 ∧
      ((executeSingleStep oracle k sp ma msgs td te ctx).requests.getD 1 emptyLlmRequest).tools
          = none ∧
      ((executeSingleStep oracle k sp ma msgs td te ctx).requests.getD 1
          emptyLlmRequest).toolChoice = none ∧
      (executeSingleStep oracle k sp ma msgs td te ctx).result.toOption.map
          (fun r => r.toolCallsExecuted) = some tcs.length ∧
      (executeSingleStep oracle k sp ma msgs td te ctx).result.toOption.map
          (fun r => r.output) = some (oracle (k + 1)).content ∧
      executeToolCalls tcs te ctx = .ok (toolResultsFor te ctx tcs) ∧
      (toolResultsFor te ctx tcs).length = tcs.length ∧
      (toolResultsFor te ctx tcs).map (fun r => r.toolCallId) = tcs.map (fun tc => tc.id) ∧
      ((executeSingleStep oracle k sp ma msgs td te ctx).requests.getD 1
          emptyLlmRequest).messages =
        msgs ++ [mkAssistantMessage (oracle k)] ++
          (toolResultsFor te ctx tcs).map mkToolMessage) ∧
    (hasToolCalls (oracle k).toolCalls = false →
      (executeSingleStep oracle k sp ma msgs td te ctx).requests.length = 1 ∧
      (executeSingleStep oracle k sp ma msgs td te ctx).result.toOption.map
          (fun r => r.output) = some (oracle k).content ∧
      (executeSingleStep oracle k sp ma msgs td te ctx).result.toOption.map
          (fun r => r.toolCallsExecuted) = some 0) := by
  constructor
  · intro tcs htc hne hparse
    obtain ⟨tc, rest, rfl⟩ : ∃ tc rest, tcs = tc :: rest := by
      cases tcs with
      | nil => exact absurd rfl hne
      | cons tc rest => exact ⟨tc, rest, rfl⟩
    have hok := executeToolCalls_eq_map (tc :: rest) te ctx hparse
    simp only [executeSingleStep, htc]
    rw [hok]
    dsimp only
    refine ⟨rfl, rfl, rfl, ?_, rfl, rfl, toolResultsFor_length te ctx _,
      toolResultsFor_ids te ctx _, rfl⟩
    simp [Except.toOption, toolResultsFor_length]
  · intro hno
    cases htc : (oracle k).toolCalls with
    | none => simp [executeSingleStep, htc, Except.toOption]
    | some l =>
      cases l with
      | nil => simp [executeSingleStep, htc, Except.toOption]
      | cons tc tcs => rw [htc] at hno; simp [hasToolCalls] at hno

theorem singleStep_two_call_shape_witness :
    (executeSingleStep c5Oracle 0 "s" "m" [userMessage "hi"] [] [okExecutor] exCtx).requests.length
        = 2 ∧
    ((executeSingleStep c5Oracle 0 "s" "m" [userMessage "hi"] [] [okExecutor]
        exCtx).requests.getD 1 emptyLlmRequest).tools = none ∧
    (executeSingleStep c5Oracle 0 "s" "m" [userMessage "hi"] [] [okExecutor]
        exCtx).result.toOption.map (fun r => r.toolCallsExecuted) = some 1 ∧
    (executeSingleStep c5Oracle 0 "s" "m" [userMessage "hi"] [] [okExecutor]
        exCtx).result.toOption.map (fun r => r.output) = some "r1" := by
  have h := singleStep_two_call_shape c5Oracle 0 "s" "m" [userMessage "hi"] [] [okExecutor] exCtx
  have h1 := h.1 [okToolCall] rfl (by decide) (by decide)
  refine ⟨h1.1, h1.2.1, ?_, ?_⟩
  · have := h1.2.2.2.1
    simpa using this
  · have := h1.2.2.2.2.1
    rw [this]; rfl

/-- C6 counterexample: when the first response of a single_step run
requests one tool call whose arguments string is not valid JSON, only
one model-generation call occurs and the run aborts with the JSON.parse
exception, so the claimed second model call and result never happen. -/
theorem singleStep_parse_fail_counterexample :
    hasToolCalls (c6BadOracle 0).toolCalls = true ∧
    (executeSingleStep c6BadOracle 0 "s" "m" [userMessage "hi"] [] [] exCtx).requests.length
        = 1 ∧
    (executeSingleStep c6BadOracle 0 "s" "m" [userMessage "hi"] [] [] exCtx).result
        = .error jsonSyntaxErrorMessage :=
  ⟨rfl, rfl, rfl⟩

/-- C7 counterexample: a tool-call request whose name matches no
supplied executor but whose arguments string is not valid JSON makes the
tool-execution phase throw (JSON.parse runs before the executor lookup
and is not caught), so no error result is synthesized and an exception
escapes the phase, contrary to the claim as stated. -/
theorem toolNotFound_counterexample :
    executeToolCalls [badToolCall] [] exCtx = .error jsonSyntaxErrorMessage ∧
    jsonParse badToolCall.function.arguments = none ∧
    (([] : List ToolExecutor).find? (fun e => e.name == badToolCall.function.name)) = none :=
  ⟨rfl, rfl, rfl⟩

/-- C7 (amended): when every arguments string in the batch parses as
JSON, the phase returns normally with one result per request; a request
whose name matches no executor gets a synthesized error result naming
the tool, with no input or output recorded (nothing invoked); but a
request whose arguments string does not parse makes JSON.parse throw and
the exception escapes the phase. -/
theorem toolNotFound_amended (te : List ToolExecutor) (ctx : ToolExecutionContext) :
    (∀ tcs : List ToolCall, (∀ t ∈ tcs, (jsonParse t.function.arguments).isSome = true) →
      executeToolCalls tcs te ctx = .ok (toolResultsFor te ctx tcs)) ∧
    (∀ (tc : ToolCall) (v : JsValue),
      te.find? (fun e => e.name == tc.function.name) = none →
      resultForToolCall te ctx tc v =
        { toolCallId := tc.id, toolName := tc.function.name, input := none, output := none,
          error := some ("Tool executor not found: " ++ tc.function.name) }) ∧
    (∀ (tcs : List ToolCall) (t : ToolCall), t ∈ tcs →
      jsonParse t.function.arguments = none →
      executeToolCalls tcs te ctx = .error jsonSyntaxErrorMessage) := by
  refine ⟨fun tcs hp => executeToolCalls_eq_map tcs te ctx hp, ?_,
    fun tcs t ht hp => executeToolCalls_error_of_parse_fail tcs te ctx t ht hp⟩
  intro tc v hfind
  simp [resultForToolCall, hfind]

theorem toolNotFound_amended_witness :
    executeToolCalls [okToolCall] [] exCtx = .ok (toolResultsFor [] exCtx [okToolCall]) ∧
    resultForToolCall [] exCtx okToolCall .null =
      { toolCallId := "call_1", toolName := "lookup_ip", input := none, output := none,
        error := some "Tool executor not found: lookup_ip" } ∧
    executeToolCalls [badToolCall] [] exCtx = .error jsonSyntaxErrorMessage := by
  have h := toolNotFound_amended [] exCtx
  refine ⟨h.1 [okToolCall] (by decide), ?_,
    h.2.2 [badToolCall] badToolCall (by simp) rfl⟩
  have h2 := h.2.1 okToolCall .null rfl
  rw [h2]
  rfl

/-- C8: plan_and_execute is exactly the spec-described composition: one
preliminary model call whose request uses the system prompt with the
plan-instruction suffix appended and offers no tools, the plan framed as
an assistant message appended to the conversation, then the
loop_with_limits strategy over the extended conversation with the same
maxSteps; the result is the loop result verbatim. -/
theorem planAndExecute_refines_spec (oracle : Nat → LlmResponse) (k : Nat)
    (sp ma : String) (msgs : List Message) (td : List ToolDefinition)
    (te : List ToolExecutor) (maxSteps : Nat) (ctx : ToolExecutionContext) :
    executePlanAndExecute oracle k sp ma msgs td te maxSteps ctx =
      planAndExecuteSpec oracle k sp ma msgs td te maxSteps ctx ∧
    (executePlanAndExecute oracle k sp ma msgs td te maxSteps ctx).requests.head? =
      some { modelAlias := ma, systemPrompt := sp ++ planInstructionSuffix, messages := msgs,
             tools := none, toolChoice := none } ∧
    (executePlanAndExecute oracle k sp ma msgs td te maxSteps ctx).requests.tail =
      (executeLoop oracle (k + 1) sp ma (msgs ++ [planFramedMessage (oracle k).content]) td te
        maxSteps ctx).requests ∧
    (executePlanAndExecute oracle k sp ma msgs td te maxSteps ctx).result =
      (executeLoop oracle (k + 1) sp ma (msgs ++ [planFramedMessage (oracle k).content]) td te
        maxSteps ctx).result :=
  ⟨rfl, rfl, rfl, rfl⟩

/-- C9: the trace returned by a plan_and_execute run contains no
llm_call record for the planning phase: the planning step record is
constructed but discarded, so every returned step comes from the loop. -/
theorem planAndExecute_trace_drops_planning (oracle : Nat → LlmResponse) (k : Nat)
    (sp ma : String) (msgs : List Message) (td : List ToolDefinition)
    (te : List ToolExecutor) (maxSteps : Nat) (ctx : ToolExecutionContext)
    (r : AgentExecutionResult)
    (hr : (executePlanAndExecute oracle k sp ma msgs td te maxSteps ctx).result = .ok r) :
    r.steps.all (fun s => !isPlanningStep s) = true := by
  have hr2 : (executeLoopAux oracle ma sp td te ctx maxSteps (k + 1) 0
      (msgs ++ [planFramedMessage (oracle k).content]) [] 0 0 0 "").result = .ok r := hr
  exact executeLoopAux_no_planning oracle ma sp td te ctx maxSteps (k + 1) 0
    (msgs ++ [planFramedMessage (oracle k).content]) [] 0 0 0 "" r rfl hr2

theorem planAndExecute_trace_drops_planning_witness :
    (executePlanAndExecute c9Oracle 0 "s" "m" [userMessage "q"] [] [] 1 exCtx).result
        = .ok c9Result ∧
    c9Result.steps.all (fun s => !isPlanningStep s) = true :=
  ⟨rfl, planAndExecute_trace_drops_planning c9Oracle 0 "s" "m" [userMessage "q"] [] [] 1 exCtx
    c9Result rfl⟩

/-- C10: given a previousMessages array, execute pushes the new user
message onto that same array before any model call: the run works on the
caller reference, no new array is allocated, the referenced array grows
by exactly the one user entry, and every other array is untouched. -/
theorem previousMessages_push_in_place (h : MessageHeap) (r : Nat) (input : String)
    (hr : r < h.length) :
    (executeInitMessages h (some r) input).2 = r ∧
    (executeInitMessages h (some r) input).1.length = h.length ∧
    (executeInitMessages h (some r) input).1.getD r [] = h.getD r [] ++ [userMessage input] ∧
    ∀ j, j ≠ r → (executeInitMessages h (some r) input).1.getD j [] = h.getD j [] := by
  refine ⟨rfl, ?_, ?_, ?_⟩
  · simp [executeInitMessages, heapPush]
  · simp only [executeInitMessages, heapPush, List.getD_eq_getElem?_getD]
    rw [List.getElem?_set_eq_of_lt _ hr]
    rfl
  · intro j hj
    simp only [executeInitMessages, heapPush, List.getD_eq_getElem?_getD]
    rw [List.getElem?_set_ne (fun he => hj he.symm)]

theorem previousMessages_push_in_place_witness :
    0 < c10Heap.length ∧
    (executeInitMessages c10Heap (some 0) "hi").2 = 0 ∧
    (executeInitMessages c10Heap (some 0) "hi").1.length = 1 ∧
    (executeInitMessages c10Heap (some 0) "hi").1.getD 0 [] =
      [{ role := "assistant", content := some "earlier" }, userMessage "hi"] := by
  have h := previousMessages_push_in_place c10Heap 0 "hi" (by decide)
  refine ⟨by decide, h.1, h.2.1, ?_⟩
  rw [h.2.2.1]
  rfl

theorem singleStepWrap_requests (out : ExecOutcome) :
    (singleStepWrap out).requests = out.requests := by
  cases hres : out.result <;> simp [singleStepWrap, hres]

theorem resolvedMaxSteps_pos (agent : AgentRecord) : 0 < resolvedMaxSteps agent := by
  cases h : agent.maxSteps with
  | none => simp [resolvedMaxSteps, jsOrNat, h]
  | some v =>
    simp only [resolvedMaxSteps, jsOrNat, h]
    split <;> omega

theorem execute_single_step_eq (db : Db) (oracle : Nat → LlmResponse)
    (options : AgentExecutionOptions) (agent : AgentRecord)
    (hfind : db.agents.find? (fun a => a.id == options.agentId) = some agent)
    (hmode : agent.planningMode = "single_step") :
    execute db oracle options = singleStepWrap (executeSingleStep oracle 0
      (enhancedPromptFor db options agent) (resolvedModelAlias agent) (runMessages options)
      (buildToolDefinitions agent.tools) (runExecutors options) (runCtx options)) := by
  simp [execute, hfind, hmode]

theorem execute_loop_eq (db : Db) (oracle : Nat → LlmResponse)
    (options : AgentExecutionOptions) (agent : AgentRecord)
    (hfind : db.agents.find? (fun a => a.id == options.agentId) = some agent)
    (hmode : agent.planningMode = "loop_with_limits") :
    execute db oracle options = executeLoop oracle 0 (enhancedPromptFor db options agent)
      (resolvedModelAlias agent) (runMessages options) (buildToolDefinitions agent.tools)
      (runExecutors options) (resolvedMaxSteps agent) (runCtx options) := by
  simp [execute, hfind, hmode]

theorem execute_plan_eq (db : Db) (oracle : Nat → LlmResponse)
    (options : AgentExecutionOptions) (agent : AgentRecord)
    (hfind : db.agents.find? (fun a => a.id == options.agentId) = some agent)
    (hm1 : agent.planningMode ≠ "single_step")
    (hm2 : agent.planningMode ≠ "loop_with_limits") :
    execute db oracle options = executePlanAndExecute oracle 0
      (enhancedPromptFor db options agent) (resolvedModelAlias agent) (runMessages options)
      (buildToolDefinitions agent.tools) (runExecutors options) (resolvedMaxSteps agent)
      (runCtx options) := by
  simp [execute, hfind, beq_iff_eq, hm1, hm2]

/-- C1 counterexample: a single_step run whose two model calls report
usage 1 + 2 and 4 + 8 returns aggregate totalTokens 3 (the first call
alone), not 15 (the sum over all calls), so the second call usage is not
included. -/
theorem tokenUsage_counterexample :
    (execute c1Db c1Oracle c1Options).requests.length = 2 ∧
    (execute c1Db c1Oracle c1Options).result.toOption.map (fun r => r.usage.totalTokens)
        = some 3 ∧
    (c1Oracle 0).usage.inputTokens + (c1Oracle 0).usage.outputTokens +
      ((c1Oracle 1).usage.inputTokens + (c1Oracle 1).usage.outputTokens) = 15 ∧
    (3 : Nat) ≠ 15 :=
  ⟨rfl, rfl, rfl, by decide⟩

/-- C1 (amended): the aggregate usage of a run sums only the main-loop
model calls: in loop_with_limits mode totalTokens is the sum of
input+output tokens over all issued calls; in single_step mode it is the
usage of the first call only (the second call usage is dropped); in
plan_and_execute mode it is the sum over the loop calls only (the
planning call usage is dropped). -/
theorem usageAccounting_amended (db : Db) (oracle : Nat → LlmResponse)
    (options : AgentExecutionOptions) (agent : AgentRecord) (r : AgentExecutionResult)
    (hfind : db.agents.find? (fun a => a.id == options.agentId) = some agent)
    (hr : (execute db oracle options).result = .ok r) :
    (agent.planningMode = "single_step" →
      r.usage.totalTokens = (oracle 0).usage.inputTokens + (oracle 0).usage.outputTokens) ∧
    (agent.planningMode = "loop_with_limits" →
      r.usage.totalTokens = oracleUsageSum oracle 0 (execute db oracle options).requests.length) ∧
    (agent.planningMode ≠ "single_step" → agent.planningMode ≠ "loop_with_limits" →
      r.usage.totalTokens =
        oracleUsageSum oracle 1 ((execute db oracle options).requests.length - 1)) := by
  refine ⟨?_, ?_, ?_⟩
  · intro hmode
    rw [execute_single_step_eq db oracle options agent hfind hmode] at hr
    cases hss : (executeSingleStep oracle 0 (enhancedPromptFor db options agent)
        (resolvedModelAlias agent) (runMessages options) (buildToolDefinitions agent.tools)
        (runExecutors options) (runCtx options)).result with
    | error e => simp [singleStepWrap, hss] at hr
    | ok r2 =>
      simp only [singleStepWrap, hss] at hr
      cases hr
      have hu := executeSingleStep_ok_usage oracle 0 (enhancedPromptFor db options agent)
        (resolvedModelAlias agent) (runMessages options) (buildToolDefinitions agent.tools)
        (runExecutors options) (runCtx options) r2 hss
      simp [hu]
  · intro hmode
    rw [execute_loop_eq db oracle options agent hfind hmode] at hr ⊢
    simp only [executeLoop] at hr ⊢
    have h := executeLoopAux_ok_usage oracle (resolvedModelAlias agent)
      (enhancedPromptFor db options agent) (buildToolDefinitions agent.tools)
      (runExecutors options) (runCtx options) (resolvedMaxSteps agent) 0 0
      (runMessages options) [] 0 0 0 "" r hr
    simpa using h
  · intro hm1 hm2
    rw [execute_plan_eq db oracle options agent hfind hm1 hm2] at hr ⊢
    simp only [executePlanAndExecute, executeLoop] at hr ⊢
    have h := executeLoopAux_ok_usage oracle (resolvedModelAlias agent)
      (enhancedPromptFor db options agent) (buildToolDefinitions agent.tools)
      (runExecutors options) (runCtx options) (resolvedMaxSteps agent) (0 + 1) 0
      (runMessages options ++ [planFramedMessage (oracle 0).content]) [] 0 0 0 "" r hr
    simpa using h

theorem usageAccounting_amended_witness :
    c1Agent.planningMode = "single_step" ∧
    c1Result.usage.totalTokens
      = (c1Oracle 0).usage.inputTokens + (c1Oracle 0).usage.outputTokens := by
  have h := usageAccounting_amended c1Db c1Oracle c1Options c1Agent c1Result rfl rfl
  exact ⟨rfl, h.1 rfl⟩

/-- C2: at the failing input (executor for lookup_ip throwing with
message timeout in a loop run) the run does continue to a second model
call and completes, but the tool-result message fed back to the model
has undefined content (JSON.stringify of the absent output field), so
the fed-back content is not an error string containing timeout; the
error text is only recorded in the step trace. -/
theorem toolErrorFeedback_divergence :
    (execute c2Db c1Oracle c2Options).requests.length = 2 ∧
    ((execute c2Db c1Oracle c2Options).requests.getD 1 emptyLlmRequest).messages.getD 2
        emptyMessage = { role := "tool", content := none, tool_call_id := some "call_1" } ∧
    (execute c2Db c1Oracle c2Options).result.toOption.map (fun r => r.output) = some "final" ∧
    (execute c2Db c1Oracle c2Options).result.toOption.map (fun r => r.steps.getD 1 emptyStep)
        = some c2ToolStep :=
  ⟨rfl, rfl, rfl, rfl⟩

/-- C3 counterexample: for an agent with no active system prompt version
and no model alias, execute does not fail before a model call: the run
makes a model call using the default prompt and default alias and
completes normally. -/
theorem configurationError_counterexample :
    (execute c3Db c3Oracle c3Options).requests.length = 1 ∧
    (execute c3Db c3Oracle c3Options).result.toOption.map (fun r => r.output) = some "resp" ∧
    ((execute c3Db c3Oracle c3Options).requests.getD 0 emptyLlmRequest).modelAlias
        = "claude-3-5-sonnet" ∧
    ((execute c3Db c3Oracle c3Options).requests.getD 0 emptyLlmRequest).systemPrompt
        = "You are a helpful AI assistant for SecOps." :=
  ⟨rfl, rfl, rfl, rfl⟩

theorem all_requests_or_suffix (reqs : List LlmRequest) (ma e suffix : String)
    (h : reqs.all (fun req => req.modelAlias == ma && req.systemPrompt == e) = true) :
    reqs.all (fun req => req.modelAlias == ma &&
      (req.systemPrompt == e || req.systemPrompt == e ++ suffix)) = true := by
  rw [List.all_eq_true] at h ⊢
  intro req hreq
  have h2 := h req hreq
  rw [Bool.and_eq_true] at h2
  rw [Bool.and_eq_true, Bool.or_eq_true]
  exact ⟨h2.1, Or.inl h2.2⟩

/-- C3 (amended): when the agent is not found, execute throws the error
Agent not found before any model call; but a missing active system
prompt or model alias does not abort the run: the documented defaults
are substituted, at least one model call is still made, and every
request of the run uses the default alias and a prompt built from the
default system prompt (with the planning suffix possibly appended). -/
theorem configurationFallback_amended (db : Db) (oracle : Nat → LlmResponse)
    (options : AgentExecutionOptions) :
    (db.agents.find? (fun a => a.id == options.agentId) = none →
      execute db oracle options =
        { result := .error "Agent not found", callsAfter := 0, requests := [] }) ∧
    (∀ agent, db.agents.find? (fun a => a.id == options.agentId) = some agent →
      agent.systemPrompts.filter (fun p => p.status == "active") = [] →
      agent.defaultModelAlias = none →
      0 < (execute db oracle options).requests.length ∧
      (execute db oracle options).requests.all
        (fun req => req.modelAlias == defaultModelAlias &&
          (req.systemPrompt == buildEnhancedSystemPrompt defaultSystemPrompt
              (retrieveContext db options.agentId options.organizationId options.input) ||
           req.systemPrompt == buildEnhancedSystemPrompt defaultSystemPrompt
              (retrieveContext db options.agentId options.organizationId options.input) ++
             planInstructionSuffix)) = true) := by
  constructor
  · intro hnone
    simp [execute, hnone]
  · intro agent hfind hfilter halias
    have hsp : resolvedSystemPrompt agent = defaultSystemPrompt := by
      simp [resolvedSystemPrompt, activeSystemPrompts, hfilter, List.insertionSort, jsOrString]
    have hma : resolvedModelAlias agent = defaultModelAlias := by
      simp [resolvedModelAlias, halias, jsOrString]
    have hen : enhancedPromptFor db options agent = buildEnhancedSystemPrompt
        defaultSystemPrompt
        (retrieveContext db options.agentId options.organizationId options.input) := by
      rw [enhancedPromptFor, hsp]
    by_cases h1 : agent.planningMode = "single_step"
    · rw [execute_single_step_eq db oracle options agent hfind h1, singleStepWrap_requests]
      obtain ⟨hall, hpos⟩ := executeSingleStep_request_fields oracle 0
        (enhancedPromptFor db options agent) (resolvedModelAlias agent) (runMessages options)
        (buildToolDefinitions agent.tools) (runExecutors options) (runCtx options)
      simp only [hma, hen] at hall hpos ⊢
      exact ⟨hpos, all_requests_or_suffix _ _ _ _ hall⟩
    · by_cases h2 : agent.planningMode = "loop_with_limits"
      · rw [execute_loop_eq db oracle options agent hfind h2]
        simp only [executeLoop]
        have hall := executeLoopAux_request_fields oracle (resolvedModelAlias agent)
          (enhancedPromptFor db options agent) (buildToolDefinitions agent.tools)
          (runExecutors options) (runCtx options) (resolvedMaxSteps agent) 0 0
          (runMessages options) [] 0 0 0 ""
        have hpos := executeLoopAux_requests_pos oracle (resolvedModelAlias agent)
          (enhancedPromptFor db options agent) (buildToolDefinitions agent.tools)
          (runExecutors options) (runCtx options) (resolvedMaxSteps agent) 0 0
          (runMessages options) [] 0 0 0 "" (resolvedMaxSteps_pos agent)
        simp only [hma, hen] at hall hpos ⊢
        exact ⟨hpos, all_requests_or_suffix _ _ _ _ hall⟩
      · rw [execute_plan_eq db oracle options agent hfind h1 h2]
        simp only [executePlanAndExecute, executeLoop]
        refine ⟨by simp, ?_⟩
        rw [List.all_cons, Bool.and_eq_true]
        refine ⟨?_, ?_⟩
        · simp [hma, hen]
        · have hall := executeLoopAux_request_fields oracle (resolvedModelAlias agent)
            (enhancedPromptFor db options agent) (buildToolDefinitions agent.tools)
            (runExecutors options) (runCtx options) (resolvedMaxSteps agent) (0 + 1) 0
            (runMessages options ++ [planFramedMessage (oracle 0).content]) [] 0 0 0 ""
          simp only [hma, hen] at hall ⊢
          exact all_requests_or_suffix _ _ _ _ hall

theorem configurationFallback_amended_witness :
    0 < (execute c3Db c3Oracle c3Options).requests.length ∧
    (execute c3Db c3Oracle c3Options).requests.all
      (fun req => req.modelAlias == defaultModelAlias &&
        (req.systemPrompt == buildEnhancedSystemPrompt defaultSystemPrompt
            (retrieveContext c3Db c3Options.agentId c3Options.organizationId
              c3Options.input) ||
         req.systemPrompt == buildEnhancedSystemPrompt defaultSystemPrompt
            (retrieveContext c3Db c3Options.agentId c3Options.organizationId
              c3Options.input) ++ planInstructionSuffix)) = true :=
  (configurationFallback_amended c3Db c3Oracle c3Options).2 c3Agent rfl rfl rfl

/-- C4 counterexample: a retrieved memory whose value is 1200 characters
long is appended to the context section in full: the snippet is the
label plus the entire value, with no truncation to 1000 characters. -/
theorem contextTruncation_counterexample :
    retrieveContext c4Db "a4" "o1" "q"
        = [docSnippet c4Doc c4LongContent, memorySnippet c4Mem] ∧
    memorySnippet c4Mem = "[Memory: k1]\n" ++ c4LongValue ∧
    c4LongValue.length = 1200 ∧
    1000 < c4LongValue.length := by
  have hlen : c4LongValue.length = 1200 := by
    have h1 : c4LongValue.length = (List.replicate 1200 'a').length := rfl
    rw [h1, List.length_replicate]
  exact ⟨rfl, rfl, hlen, by rw [hlen]; omega⟩

/-- C4 (amended): context assembly appends a delimited Relevant Context
section when at least one snippet is retrieved and leaves the prompt
unmodified otherwise; every snippet is labeled by its source, with
document snippets truncated to at most 1000 characters of content but
memory snippets appended in full, untruncated. -/
theorem contextAssembly_amended (db : Db) (agentId orgId q basePrompt : String) :
    (retrieveContext db agentId orgId q = [] →
      buildEnhancedSystemPrompt basePrompt (retrieveContext db agentId orgId q) = basePrompt) ∧
    (retrieveContext db agentId orgId q ≠ [] →
      buildEnhancedSystemPrompt basePrompt (retrieveContext db agentId orgId q) =
        basePrompt ++ relevantContextHeader ++
          String.intercalate snippetSeparator (retrieveContext db agentId orgId q) ++
          relevantContextFooter) ∧
    (∀ s ∈ retrieveContext db agentId orgId q,
      (∃ d ∈ queryContextDocuments db agentId orgId, ∃ c, d.content = some c ∧ c ≠ "" ∧
        s = docSnippet d c) ∨
      (∃ m ∈ queryAgentMemories db agentId, s = memorySnippet m)) ∧
    (∀ (d : ContextDocument) (c : String), (jsSubstringTo c 1000).length ≤ 1000 ∧
      docSnippet d c = "[Document: " ++ d.title ++ "]\n" ++ jsSubstringTo c 1000) ∧
    (∀ m : AgentMemory, memorySnippet m = "[Memory: " ++ m.key ++ "]\n" ++ m.value) := by
  refine ⟨?_, ?_, ?_, ?_, fun m => rfl⟩
  · intro h
    rw [h]
    rfl
  · intro h
    cases hl : retrieveContext db agentId orgId q with
    | nil => exact absurd hl h
    | cons x xs => simp [buildEnhancedSystemPrompt]
  · intro s hs
    simp only [retrieveContext] at hs
    rcases List.mem_append.mp hs with h | h
    · left
      obtain ⟨d, hd, hmatch⟩ := List.mem_filterMap.mp h
      cases hc : d.content with
      | none => rw [hc] at hmatch; simp at hmatch
      | some c =>
        rw [hc] at hmatch
        dsimp only at hmatch
        by_cases hce : c = ""
        · simp [hce] at hmatch
        · simp only [hce, if_false] at hmatch
          exact ⟨d, hd, c, hc, hce, ((Option.some_inj).mp hmatch).symm⟩
    · right
      obtain ⟨m, hm, heq⟩ := List.mem_map.mp h
      exact ⟨m, hm, heq.symm⟩
  · intro d c
    refine ⟨?_, rfl⟩
    have h1 : (jsSubstringTo c 1000).length = (c.data.take 1000).length := rfl
    rw [h1, List.length_take]
    exact Nat.min_le_left _ _

theorem contextAssembly_amended_witness :
    retrieveContext c4SmallDb "a5" "o1" "q" ≠ [] ∧
    buildEnhancedSystemPrompt "base" (retrieveContext c4SmallDb "a5" "o1" "q") =
      "base" ++ relevantContextHeader ++
        String.intercalate snippetSeparator (retrieveContext c4SmallDb "a5" "o1" "q") ++
        relevantContextFooter ∧
    memorySnippet c4SmallMem = "[Memory: " ++ c4SmallMem.key ++ "]\n" ++ c4SmallMem.value := by
  have h := contextAssembly_amended c4SmallDb "a5" "o1" "q" "base"
  exact ⟨by decide, h.2.1 (by decide), h.2.2.2.2 c4SmallMem⟩

end AgentExec
